import Mathlib

/-!
Verification of the spreadsheet coordinate algebra, folder-hierarchy
resolver, and configuration validation of the BoDevOpsFeature library.

JavaScript strings are modelled as `List Char`; JavaScript numbers are
modelled as `Int` (all inputs exercised here are integers); fallible
operations return `Option` or `Except String`.
-/

/-- ASCII fragment of the JavaScript whitespace class used by
`String.prototype.trim` (space, tab, line feed, carriage return,
vertical tab, form feed). -/
def isJsSpace (c : Char) : Bool :=
  decide (c = ' ' ∨ c = '\t' ∨ c = '\n' ∨ c = '\r' ∨ c = '\x0b' ∨ c = '\x0c')

/-- Model of `String.prototype.toUpperCase` on one ASCII character:
a lowercase letter (code 97–122) is mapped 32 code points down, any
other character is unchanged. -/
def jsToUpperChar (c : Char) : Char :=
  if 97 ≤ c.toNat ∧ c.toNat ≤ 122 then Char.ofNat (c.toNat - 32) else c

/-- Model of `String.prototype.trim`: drop leading and trailing
whitespace characters. -/
def trimChars (l : List Char) : List Char :=
  ((l.dropWhile isJsSpace).reverse.dropWhile isJsSpace).reverse

/-- Character class `[A-Z]` of the validation pattern in
`convertColumnNameToIndex` (codes 65–90). -/
def isColLetter (c : Char) : Bool :=
  decide (65 ≤ c.toNat ∧ c.toNat ≤ 90)

/-- The `while` loop of `convertIndexToColumnName`
(src/src/gg-sheet/utils.ts, lines 52–62): while `index >= 0`, prepend
`String.fromCharCode(index % 26 + 65)` and set
`index = Math.floor(index / 26) - 1`.  Inside the loop `index` is
non-negative, where JavaScript `%` and `Math.floor` of the quotient
agree with euclidean `%` and `/` on `Int`. -/
def idxToColAux (index : Int) (columnName : List Char) : List Char :=
  if index < 0 then columnName
  else idxToColAux (index / 26 - 1) (Char.ofNat ((index % 26).toNat + 65) :: columnName)
termination_by (index + 1).toNat
decreasing_by omega

/-- `convertIndexToColumnName` (src/src/gg-sheet/utils.ts, lines 52–62):
converts a 0-based column index to a column letter string. -/
def convertIndexToColumnName (columnIndex : Int) : List Char :=
  idxToColAux columnIndex []

/-- `convertColumnNameToIndex` (src/src/gg-sheet/utils.ts, lines 79–97):
uppercases and trims the input, rejects it (`none`, the
`InvalidColumnName` error) unless it matches `^[A-Z]+$`, then folds
`result = result * 26 + (charCode + 1)` over the characters and
returns `result - 1`. -/
def convertColumnNameToIndex (columnName : List Char) : Option Nat :=
  let upperColumnName := trimChars (columnName.map jsToUpperChar)
  if ¬ (upperColumnName ≠ [] ∧ upperColumnName.all isColLetter) then none
  else some ((upperColumnName.foldl (fun result c => result * 26 + ((c.toNat - 65) + 1)) 0) - 1)

/-- `calculateActualRow` (src/src/gg-sheet/utils.ts, lines 272–282):
1-based sheet row of a 0-based data row under a header row and
`rowOffset` extra rows. -/
def calculateActualRow (dataRowIndex : Nat) (rowOffset : Nat) : Nat :=
  dataRowIndex + 2 + rowOffset

/-- Bijective base-26 value of a letter string: the fold performed by
`convertColumnNameToIndex` before its final `- 1`. -/
def colVal (l : List Char) : Nat :=
  l.foldl (fun result c => result * 26 + ((c.toNat - 65) + 1)) 0

/-- ASCII letter in either case (codes 65–90 or 97–122). -/
def isAsciiLetter (c : Char) : Bool :=
  decide ((65 ≤ c.toNat ∧ c.toNat ≤ 90) ∨ (97 ≤ c.toNat ∧ c.toNat ≤ 122))

/-- `parseFolderPath` (src/src/gg-drive/utils.ts, lines 140–146):
`''`, `'/'` (and a missing path, which the claims never exercise) give
`[]`; otherwise split on `'/'` and keep the segments whose trim is
non-empty. -/
def parseFolderPath (folderPath : List Char) : List (List Char) :=
  if folderPath = [] ∨ folderPath = ['/'] then []
  else (folderPath.splitOn '/').filter fun folder => decide (trimChars folder ≠ [])

/-- The literal part `/spreadsheets/d/` of `SPREADSHEET_ID_PATTERN`
(src/src/gg-sheet/utils.ts, line 12). -/
def spreadsheetIdLiteral : List Char :=
  ['/', 's', 'p', 'r', 'e', 'a', 'd', 's', 'h', 'e', 'e', 't', 's', '/', 'd', '/']

/-- Character class `[a-zA-Z0-9-_]` of `SPREADSHEET_ID_PATTERN`. -/
def isIdChar (c : Char) : Bool :=
  decide ((97 ≤ c.toNat ∧ c.toNat ≤ 122) ∨ (65 ≤ c.toNat ∧ c.toNat ≤ 90) ∨
    (48 ≤ c.toNat ∧ c.toNat ≤ 57) ∨ c = '-' ∨ c = '_')

/-- Attempt of the regular expression `\/spreadsheets\/d\/([a-zA-Z0-9-_]+)`
at one start position: the 16-character literal must match here and at
least one identifier character must follow; the capture is the greedy
run of identifier characters. -/
def matchSpreadsheetIdAt (l : List Char) : Option (List Char) :=
  if l.take 16 = spreadsheetIdLiteral ∧ (l.drop 16).takeWhile isIdChar ≠ [] then
    some ((l.drop 16).takeWhile isIdChar)
  else none

/-- Left-to-right scan of the regular expression over the URL: try each
start position in order, as `String.prototype.match` does. -/
def scanSpreadsheetId : List Char → Option (List Char)
  | [] => none
  | c :: rest =>
    match matchSpreadsheetIdAt (c :: rest) with
    | some v => some v
    | none => scanSpreadsheetId rest

/-- `getSheetIdFromUrl` (src/src/gg-sheet/utils.ts, lines 28–36):
first match of `SPREADSHEET_ID_PATTERN` in the URL, `null` (`none`)
when the pattern does not match. -/
def getSheetIdFromUrl (sheetUrl : List Char) : Option (List Char) :=
  scanSpreadsheetId sheetUrl

/-- Per-tab properties of the spreadsheet metadata consumed by
`deleteRowSheet`: tab title and numeric sheet id. -/
structure SheetProps where
  title : String
  sheetId : Nat
deriving DecidableEq

/-- The `deleteDimension.range` request issued by `deleteRowSheet`. -/
structure DeleteDimensionRange where
  sheetId : Nat
  dimension : String
  startIndex : Nat
  endIndex : Nat
deriving DecidableEq

/-- `deleteRowSheet` (src/src/gg-sheet/google-sheet.ts, lines 706–755),
modelled from the spreadsheet metadata down to the structured request:
find the tab named `sheetName` (else the `Sheet not found` error),
compute `actualRowIndex = row + 1 + rowOffset`, and issue a ROWS
dimension delete over `[actualRowIndex, actualRowIndex + 1)`. -/
def deleteRowSheet (sheets : List SheetProps) (sheetName : String) (row rowOffset : Nat) :
    Except String DeleteDimensionRange :=
  match sheets.find? fun s => decide (s.title = sheetName) with
  | none => Except.error ("Sheet not found: " ++ sheetName)
  | some sheet =>
    let actualRowIndex := row + 1 + rowOffset
    Except.ok
      { sheetId := sheet.sheetId, dimension := "ROWS",
        startIndex := actualRowIndex, endIndex := actualRowIndex + 1 }

/-- The four credential fields read by `validateCredentials`; the other
fields of the service-account key file are never inspected by the
constructors. -/
structure IGoogleServiceAccountCredentials where
  type : String
  project_id : String
  private_key : String
  client_email : String
deriving DecidableEq

/-- JavaScript truthiness of an optional string: `undefined` and `''`
are falsy. -/
def strTruthy : Option String → Bool
  | none => false
  | some s => decide (s ≠ "")

def DEFAULT_DRIVE_SCOPES : List String :=
  ["https://www.googleapis.com/auth/drive", "https://www.googleapis.com/auth/drive.file"]

def DEFAULT_SHEET_SCOPES : List String :=
  ["https://www.googleapis.com/auth/spreadsheets"]

/-- `validateCredentials` shared by `GoogleDriveConfig` and
`GoogleSheetConfig` (src/unnamed/part_000 lines 139–159 and
src/unnamed/part_004 lines 69–93, identical up to the `label` prefix):
each required field must be truthy (non-empty), then `type` must equal
`'service_account'`. -/
def validateCredentials (label : String) (credentials : IGoogleServiceAccountCredentials) :
    Except String Unit :=
  if credentials.type = "" then
    Except.error (label ++ ": Missing required credential field: type")
  else if credentials.project_id = "" then
    Except.error (label ++ ": Missing required credential field: project_id")
  else if credentials.private_key = "" then
    Except.error (label ++ ": Missing required credential field: private_key")
  else if credentials.client_email = "" then
    Except.error (label ++ ": Missing required credential field: client_email")
  else if credentials.type ≠ "service_account" then
    Except.error (label ++ ": Invalid credential type. Expected service_account")
  else Except.ok ()

/-- Validated configuration state held after construction. -/
structure GoogleClientConfig where
  keyFilePath : Option String
  credentials : Option IGoogleServiceAccountCredentials
  scopes : List String
deriving DecidableEq

/-- Shared constructor body of the two configuration classes
(src/unnamed/part_000 lines 118–132, src/unnamed/part_004 lines 53–67):
throw when `!keyFilePath && !credentials`, default the scopes, then
validate the credentials object when one was given. -/
def constructConfig (label : String) (defaultScopes : List String)
    (keyFilePath : Option String) (credentials : Option IGoogleServiceAccountCredentials)
    (scopes : Option (List String)) : Except String GoogleClientConfig :=
  if strTruthy keyFilePath = false ∧ credentials = none then
    Except.error (label ++ ": Either keyFilePath or credentials must be provided")
  else
    let cfg : GoogleClientConfig :=
      { keyFilePath := keyFilePath, credentials := credentials,
        scopes := scopes.getD defaultScopes }
    match credentials with
    | some c => (validateCredentials label c).map fun _ => cfg
    | none => Except.ok cfg

/-- `new GoogleDriveConfig(...)` (src/unnamed/part_000, lines 118–159). -/
def GoogleDriveConfigMk (keyFilePath : Option String)
    (credentials : Option IGoogleServiceAccountCredentials)
    (scopes : Option (List String)) : Except String GoogleClientConfig :=
  constructConfig "GoogleDriveConfig" DEFAULT_DRIVE_SCOPES keyFilePath credentials scopes

/-- `new GoogleSheetConfig(...)` (src/unnamed/part_004, lines 53–93). -/
def GoogleSheetConfigMk (keyFilePath : Option String)
    (credentials : Option IGoogleServiceAccountCredentials)
    (scopes : Option (List String)) : Except String GoogleClientConfig :=
  constructConfig "GoogleSheetConfig" DEFAULT_SHEET_SCOPES keyFilePath credentials scopes

/-- Spec-side predicate, following the claim's words: exactly one
credential form is present — either a (truthy) credential-file path or
an inline credential record, but not both and not neither. -/
def exactlyOneCredentialFormSpec (keyFilePath : Option String)
    (credentials : Option IGoogleServiceAccountCredentials) : Prop :=
  (strTruthy keyFilePath = true ∧ credentials = none) ∨
    (strTruthy keyFilePath = false ∧ credentials ≠ none)

/-- Spec-side predicate: the inline record carries the required fields,
with account type `'service_account'`. -/
def credentialsWellFormedSpec (c : IGoogleServiceAccountCredentials) : Prop :=
  c.type = "service_account" ∧ c.project_id ≠ "" ∧ c.private_key ≠ "" ∧ c.client_email ≠ ""

/-- A folder record of the mock remote drive: identifier, name, parent
identifier and trashed flag.  Identifiers are modelled as naturals,
with 0 the root. -/
structure MockFolder where
  id : Nat
  name : List Char
  parent : Nat
  trashed : Bool
deriving DecidableEq

/-- One remote call of the mock drive, for counting lookups and
creates. -/
inductive DriveEvent where
  | lookup (name : List Char) (parent : Nat) (found : Bool)
  | create (name : List Char) (parent : Nat) (newId : Nat)
deriving DecidableEq

/-- Mock remote drive: existing folders, the next fresh identifier, and
the log of remote calls issued so far. -/
structure MockDrive where
  folders : List MockFolder
  nextId : Nat
  events : List DriveEvent
deriving DecidableEq

/-- `getOrCreateFolder` (src/src/gg-drive/google-drive.ts, lines
140–181) against the mock remote: list non-trashed folders named
`folderName` under `parentId`; adopt the first hit, else create a new
folder there and adopt its identifier.  The mock always returns an
identifier for a created folder, so the `Failed to create folder`
branch is unreachable here. -/
def getOrCreateFolder (folderName : List Char) (parentId : Nat) (st : MockDrive) :
    Nat × MockDrive :=
  match st.folders.find? fun f =>
      decide (f.name = folderName ∧ f.parent = parentId ∧ f.trashed = false) with
  | some f =>
    (f.id, { st with events := st.events ++ [DriveEvent.lookup folderName parentId true] })
  | none =>
    let newId := st.nextId
    (newId,
      { folders := st.folders ++ [⟨newId, folderName, parentId, false⟩],
        nextId := st.nextId + 1,
        events := st.events ++
          [DriveEvent.lookup folderName parentId false,
            DriveEvent.create folderName parentId newId] })

/-- `createFolderHierarchy` (src/src/gg-drive/google-drive.ts, lines
189–206): parse the path; an empty segment list resolves to the root
identifier immediately, otherwise walk the segments left to right with
`getOrCreateFolder`, threading the current parent identifier. -/
def createFolderHierarchy (folderPath : List Char) (st : MockDrive) : Nat × MockDrive :=
  let folders := parseFolderPath folderPath
  if folders = [] then (0, st)
  else folders.foldl (fun acc folderName => getOrCreateFolder folderName acc.1 acc.2) (0, st)

lemma idxToColAux_neg {index : Int} (acc : List Char) (h : index < 0) :
    idxToColAux index acc = acc := by
  rw [idxToColAux]
  simp [h]

lemma idxToColAux_step {index : Int} (acc : List Char) (h : 0 ≤ index) :
    idxToColAux index acc =
      idxToColAux (index / 26 - 1) (Char.ofNat ((index % 26).toNat + 65) :: acc) := by
  rw [idxToColAux]
  simp [show ¬ index < 0 by omega]

lemma idxToColAux_append_aux (n : Nat) :
    ∀ (i : Int), (i + 1).toNat ≤ n → ∀ acc, idxToColAux i acc = idxToColAux i [] ++ acc := by
  induction n with
  | zero =>
    intro i h acc
    have hi : i < 0 := by omega
    rw [idxToColAux_neg _ hi, idxToColAux_neg _ hi]
    simp
  | succ m ih =>
    intro i h acc
    by_cases hi : i < 0
    · rw [idxToColAux_neg _ hi, idxToColAux_neg _ hi]
      simp
    · have h0 : 0 ≤ i := by omega
      rw [idxToColAux_step _ h0, idxToColAux_step _ h0]
      have hm : (i / 26 - 1 + 1).toNat ≤ m := by omega
      rw [ih _ hm, ih _ hm [Char.ofNat ((i % 26).toNat + 65)]]
      simp

lemma idxToColAux_append (i : Int) (acc : List Char) :
    idxToColAux i acc = idxToColAux i [] ++ acc :=
  idxToColAux_append_aux ((i + 1).toNat) i le_rfl acc

lemma char_toNat_ofNat {k : Nat} (h : k < 55296) : (Char.ofNat k).toNat = k := by
  rw [Char.ofNat, dif_pos (Or.inl h)]
  rfl

lemma colVal_append (l : List Char) (c : Char) :
    colVal (l ++ [c]) = colVal l * 26 + ((c.toNat - 65) + 1) := by
  simp [colVal, List.foldl_append]

/-- Structural facts about the output of the conversion loop on a
non-negative index: it is non-empty, consists only of `A`–`Z`, and its
bijective base-26 value is the index plus one. -/
lemma natColProps (n : Nat) :
    convertIndexToColumnName (n : Int) ≠ [] ∧
      (∀ c ∈ convertIndexToColumnName (n : Int), isColLetter c = true) ∧
      colVal (convertIndexToColumnName (n : Int)) = n + 1 := by
  induction n using Nat.strong_induction_on with
  | _ n ih =>
    have h0 : (0 : Int) ≤ (n : Int) := by omega
    have hmod : (((n : Int)) % 26).toNat = n % 26 := by omega
    have hchar : (Char.ofNat (n % 26 + 65)).toNat = n % 26 + 65 :=
      char_toNat_ofNat (by omega)
    have hletter : isColLetter (Char.ofNat (n % 26 + 65)) = true := by
      simp only [isColLetter, decide_eq_true_eq]
      omega
    rw [convertIndexToColumnName, idxToColAux_step _ h0, hmod]
    by_cases hlt : n < 26
    · have hneg : (n : Int) / 26 - 1 < 0 := by omega
      rw [idxToColAux_neg _ hneg]
      refine ⟨by simp, ?_, ?_⟩
      · intro c hc
        simp only [List.mem_singleton] at hc
        subst hc
        exact hletter
      · simp only [colVal, List.foldl_cons, List.foldl_nil, hchar]
        omega
    · have hcast : (n : Int) / 26 - 1 = ((n / 26 - 1 : Nat) : Int) := by omega
      have hsmall : n / 26 - 1 < n := by omega
      obtain ⟨ihne, ihmem, ihval⟩ := ih _ hsmall
      rw [hcast, idxToColAux_append]
      rw [convertIndexToColumnName] at ihne ihmem ihval
      refine ⟨by simp [ihne], ?_, ?_⟩
      · intro c hc
        rcases List.mem_append.mp hc with hc | hc
        · exact ihmem c hc
        · simp only [List.mem_singleton] at hc
          subst hc
          exact hletter
      · rw [colVal_append, ihval, hchar]
        omega

lemma isColLetter_bounds {c : Char} (h : isColLetter c = true) :
    65 ≤ c.toNat ∧ c.toNat ≤ 90 := by
  simpa [isColLetter] using h

lemma jsToUpperChar_of_colLetter {c : Char} (h : isColLetter c = true) :
    jsToUpperChar c = c := by
  obtain ⟨h1, h2⟩ := isColLetter_bounds h
  rw [jsToUpperChar, if_neg]
  omega

lemma isJsSpace_of_colLetter {c : Char} (h : isColLetter c = true) :
    isJsSpace c = false := by
  obtain ⟨h1, _⟩ := isColLetter_bounds h
  simp only [isJsSpace, decide_eq_false_iff_not]
  rintro (rfl | rfl | rfl | rfl | rfl | rfl) <;> exact absurd h1 (by decide)

lemma map_id_of_mem {f : Char → Char} :
    ∀ l : List Char, (∀ c ∈ l, f c = c) → l.map f = l := by
  intro l h
  induction l with
  | nil => rfl
  | cons c t iht =>
    simp only [List.map_cons, h c (List.mem_cons_self c t), List.cons.injEq, true_and]
    exact iht fun d hd => h d (List.mem_cons_of_mem c hd)

lemma dropWhile_of_forall_false {p : Char → Bool} :
    ∀ l : List Char, (∀ c ∈ l, p c = false) → l.dropWhile p = l := by
  intro l h
  induction l with
  | nil => rfl
  | cons c t iht =>
    rw [List.dropWhile_cons, if_neg (by simp [h c (List.mem_cons_self c t)])]

lemma trimChars_of_no_space (l : List Char) (h : ∀ c ∈ l, isJsSpace c = false) :
    trimChars l = l := by
  rw [trimChars, dropWhile_of_forall_false l h,
    dropWhile_of_forall_false l.reverse (by simpa using h), List.reverse_reverse]


/-- Claim C1: round-trip law of the column conversions — for every
non-negative integer `i`, `convertColumnNameToIndex` applied to the
output of `convertIndexToColumnName` returns `i`. -/
theorem claim_C1_roundtrip :
    ∀ n : Nat, convertColumnNameToIndex (convertIndexToColumnName (n : Int)) = some n := by
  intro n
  obtain ⟨hne, hmem, hval⟩ := natColProps n
  have hall : (convertIndexToColumnName (n : Int)).all isColLetter = true :=
    List.all_eq_true.mpr fun c hc => hmem c hc
  simp only [convertColumnNameToIndex]
  rw [map_id_of_mem _ fun c hc => jsToUpperChar_of_colLetter (hmem c hc),
    trimChars_of_no_space _ fun c hc => isJsSpace_of_colLetter (hmem c hc)]
  rw [if_neg (not_not_intro ⟨hne, hall⟩)]
  show some (colVal (convertIndexToColumnName (n : Int)) - 1) = some n
  rw [hval]
  simp

/-- Claim C2: `convertIndexToColumnName` follows the bijective base-26
loop — for a non-negative index it appends the letter picked by
`index % 26` after the conversion of `floor(index / 26) - 1` — and
maps 0, 25, 26 and 701 to `A`, `Z`, `AA` and `ZZ`. -/
theorem claim_C2_convertIndexToColumnName :
    (∀ i : Int, 0 ≤ i →
        convertIndexToColumnName i =
          convertIndexToColumnName (i / 26 - 1) ++ [Char.ofNat ((i % 26).toNat + 65)]) ∧
    convertIndexToColumnName 0 = ['A'] ∧
    convertIndexToColumnName 25 = ['Z'] ∧
    convertIndexToColumnName 26 = ['A', 'A'] ∧
    convertIndexToColumnName 701 = ['Z', 'Z'] := by
  refine ⟨fun i h => ?_, ?_, ?_, ?_, ?_⟩
  · rw [convertIndexToColumnName, convertIndexToColumnName, idxToColAux_step _ h,
      idxToColAux_append]
  all_goals
    norm_num [convertIndexToColumnName, idxToColAux_step, idxToColAux_neg]
  all_goals decide

/-- Witness for claim C2 at the concrete index 27. -/
theorem claim_C2_witness :
    (0 : Int) ≤ 27 ∧
      convertIndexToColumnName 27 =
        convertIndexToColumnName (27 / 26 - 1) ++ [Char.ofNat (((27 : Int) % 26).toNat + 65)] :=
  ⟨by norm_num, claim_C2_convertIndexToColumnName.1 27 (by norm_num)⟩

/-- Claim C7: `calculateActualRow` returns exactly
`dataRowIndex + 2 + rowOffset`; in particular `(0,0) ↦ 2`, `(5,0) ↦ 7`
and `(0,1) ↦ 3`. -/
theorem claim_C7_calculateActualRow :
    (∀ dataRowIndex rowOffset : Nat,
        calculateActualRow dataRowIndex rowOffset = dataRowIndex + 2 + rowOffset) ∧
    calculateActualRow 0 0 = 2 ∧ calculateActualRow 5 0 = 7 ∧ calculateActualRow 0 1 = 3 :=
  ⟨fun _ _ => rfl, rfl, rfl, rfl⟩

/-- Claim C10: on a negative index the conversion loop never runs, so
`convertIndexToColumnName` returns the empty string, and feeding that
output to `convertColumnNameToIndex` fails (`none`, the
`InvalidColumnName` error) instead of recovering the index. -/
theorem claim_C10_negative (i : Int) (h : i < 0) :
    convertIndexToColumnName i = [] ∧
      convertColumnNameToIndex (convertIndexToColumnName i) = none := by
  have h1 : convertIndexToColumnName i = [] := by
    rw [convertIndexToColumnName, idxToColAux_neg _ h]
  exact ⟨h1, by rw [h1]; decide⟩

/-- Witness for claim C10 at the concrete index `-1`. -/
theorem claim_C10_witness :
    (-1 : Int) < 0 ∧
      (convertIndexToColumnName (-1) = [] ∧
        convertColumnNameToIndex (convertIndexToColumnName (-1)) = none) :=
  ⟨by norm_num, claim_C10_negative (-1) (by norm_num)⟩

lemma isColLetter_jsToUpperChar {c : Char} (h : isAsciiLetter c = true) :
    isColLetter (jsToUpperChar c) = true := by
  simp only [isAsciiLetter, decide_eq_true_eq] at h
  rw [jsToUpperChar]
  rcases h with h | h
  · rw [if_neg (by omega)]
    simp only [isColLetter, decide_eq_true_eq]
    omega
  · rw [if_pos (by omega)]
    have hv := char_toNat_ofNat (k := c.toNat - 32) (by omega)
    simp only [isColLetter, hv, decide_eq_true_eq]
    omega

lemma isJsSpace_jsToUpperChar {c : Char} (h : isJsSpace c = true) :
    isJsSpace (jsToUpperChar c) = true := by
  simp only [isJsSpace, decide_eq_true_eq] at h
  rcases h with rfl | rfl | rfl | rfl | rfl | rfl <;> decide

lemma dropWhile_append_of_all {p : Char → Bool} :
    ∀ w l : List Char, (∀ c ∈ w, p c = true) →
      List.dropWhile p (w ++ l) = List.dropWhile p l := by
  intro w l
  induction w with
  | nil => intro _; rfl
  | cons c t iht =>
    intro h
    rw [List.cons_append, List.dropWhile_cons, if_pos (h c (List.mem_cons_self c t))]
    exact iht fun d hd => h d (List.mem_cons_of_mem c hd)

/-- Claim C6: `convertColumnNameToIndex` fails exactly when the
trimmed, uppercased input is empty or contains a character outside
`A`–`Z`; in particular `"1A"` and `""` fail, while any non-empty
letter string surrounded by whitespace succeeds. -/
theorem claim_C6_invalidColumnName :
    (∀ l : List Char,
        convertColumnNameToIndex l = none ↔
          (trimChars (l.map jsToUpperChar) = [] ∨
            ∃ c ∈ trimChars (l.map jsToUpperChar), isColLetter c = false)) ∧
    convertColumnNameToIndex ['1', 'A'] = none ∧
    convertColumnNameToIndex [] = none ∧
    (∀ w1 core w2 : List Char,
        (∀ c ∈ w1, isJsSpace c = true) → (∀ c ∈ w2, isJsSpace c = true) →
        core ≠ [] → (∀ c ∈ core, isAsciiLetter c = true) →
        ∃ k, convertColumnNameToIndex (w1 ++ core ++ w2) = some k) := by
  refine ⟨fun l => ?_, by decide, by decide, fun w1 core w2 hw1 hw2 hcore hletters => ?_⟩
  · simp only [convertColumnNameToIndex]
    by_cases h : trimChars (l.map jsToUpperChar) ≠ [] ∧
        (trimChars (l.map jsToUpperChar)).all isColLetter = true
    · rw [if_neg (not_not_intro h)]
      obtain ⟨h1, h2⟩ := h
      simp only [List.all_eq_true] at h2
      constructor
      · intro hsome
        simp at hsome
      · rintro (he | ⟨c, hc, hf⟩)
        · exact absurd he h1
        · rw [h2 c hc] at hf
          simp at hf
    · rw [if_pos h]
      refine iff_of_true rfl ?_
      rcases not_and_or.mp h with h | h
      · exact Or.inl (not_not.mp h)
      · simp only [List.all_eq_true] at h
        push_neg at h
        obtain ⟨c, hc, hne⟩ := h
        exact Or.inr ⟨c, hc, by simpa using hne⟩
  · obtain ⟨d, t, rfl⟩ : ∃ d t, core = d :: t := by
      cases core with
      | nil => exact absurd rfl hcore
      | cons d t => exact ⟨d, t, rfl⟩
    have hm_letters : ∀ c ∈ (d :: t).map jsToUpperChar, isColLetter c = true := by
      intro c hc
      obtain ⟨a, ha, rfl⟩ := List.mem_map.mp hc
      exact isColLetter_jsToUpperChar (hletters a ha)
    have hm_nospace : ∀ c ∈ (d :: t).map jsToUpperChar, isJsSpace c = false :=
      fun c hc => isJsSpace_of_colLetter (hm_letters c hc)
    have hw1m : ∀ c ∈ w1.map jsToUpperChar, isJsSpace c = true := by
      intro c hc
      obtain ⟨a, ha, rfl⟩ := List.mem_map.mp hc
      exact isJsSpace_jsToUpperChar (hw1 a ha)
    have hw2m : ∀ c ∈ (w2.map jsToUpperChar).reverse, isJsSpace c = true := by
      intro c hc
      obtain ⟨a, ha, rfl⟩ := List.mem_map.mp (List.mem_reverse.mp hc)
      exact isJsSpace_jsToUpperChar (hw2 a ha)
    have hfd : isJsSpace (jsToUpperChar d) = false :=
      hm_nospace _ (by simp)
    have hu : trimChars ((w1 ++ (d :: t) ++ w2).map jsToUpperChar) =
        (d :: t).map jsToUpperChar := by
      rw [List.map_append, List.map_append, trimChars, List.append_assoc,
        dropWhile_append_of_all _ _ hw1m, List.map_cons, List.cons_append, List.dropWhile_cons,
        if_neg (by simp [hfd]), List.reverse_cons, List.reverse_append, List.append_assoc,
        dropWhile_append_of_all _ _ hw2m,
        dropWhile_of_forall_false _ ?_, ← List.reverse_cons, List.reverse_reverse,
        ← List.map_cons]
      intro c hc
      rcases List.mem_append.mp hc with hc | hc
      · exact hm_nospace c (by
          have := List.mem_reverse.mp hc
          exact List.mem_cons_of_mem _ this)
      · simp only [List.mem_singleton] at hc
        subst hc
        exact hfd
    have hne2 : (d :: t).map jsToUpperChar ≠ [] := by simp
    have hall2 : ((d :: t).map jsToUpperChar).all isColLetter = true :=
      List.all_eq_true.mpr hm_letters
    refine ⟨(((d :: t).map jsToUpperChar).foldl
        (fun result c => result * 26 + ((c.toNat - 65) + 1)) 0) - 1, ?_⟩
    simp only [convertColumnNameToIndex]
    rw [hu, if_neg (not_not_intro ⟨hne2, hall2⟩)]

/-- Witness for claim C6: `" aB\t"` (lowercase and uppercase letters
surrounded by whitespace) is accepted. -/
theorem claim_C6_witness :
    (∀ c ∈ [' '], isJsSpace c = true) ∧ (∀ c ∈ ['\t'], isJsSpace c = true) ∧
      (['a', 'B'] : List Char) ≠ [] ∧ (∀ c ∈ ['a', 'B'], isAsciiLetter c = true) ∧
      ∃ k, convertColumnNameToIndex ([' '] ++ ['a', 'B'] ++ ['\t']) = some k :=
  ⟨by decide, by decide, by decide, by decide,
    claim_C6_invalidColumnName.2.2.2 [' '] ['a', 'B'] ['\t']
      (by decide) (by decide) (by decide) (by decide)⟩

lemma dropWhile_eq_nil_iff_all {p : Char → Bool} :
    ∀ l : List Char, (l.dropWhile p = [] ↔ l.all p = true) := by
  intro l
  induction l with
  | nil => simp
  | cons c t iht =>
    rw [List.dropWhile_cons]
    by_cases h : p c = true
    · rw [if_pos h]
      simp [h, iht]
    · rw [if_neg h]
      simp only [Bool.not_eq_true] at h
      simp [List.all_cons, h]

lemma all_dropWhile {p : Char → Bool} :
    ∀ l : List Char, (l.dropWhile p).all p = l.all p := by
  intro l
  induction l with
  | nil => rfl
  | cons c t iht =>
    rw [List.dropWhile_cons]
    by_cases h : p c = true
    · rw [if_pos h, iht]
      simp [List.all_cons, h]
    · rw [if_neg h]

lemma trimChars_eq_nil_iff (l : List Char) :
    trimChars l = [] ↔ l.all isJsSpace = true := by
  rw [trimChars, List.reverse_eq_nil_iff, dropWhile_eq_nil_iff_all, List.all_reverse,
    all_dropWhile]

/-- Claim C8: `parseFolderPath` splits on `'/'` and keeps exactly the
segments that are not empty and not whitespace-only; `"a/b/c"` gives
`["a","b","c"]`, while `"/"` and `""` give `[]`. -/
theorem claim_C8_parseFolderPath :
    (∀ l : List Char,
        parseFolderPath l = (l.splitOn '/').filter fun seg => !seg.all isJsSpace) ∧
    parseFolderPath ['a', '/', 'b', '/', 'c'] = [['a'], ['b'], ['c']] ∧
    parseFolderPath ['/'] = [] ∧
    parseFolderPath [] = [] := by
  refine ⟨fun l => ?_, by decide, by decide, by decide⟩
  rw [parseFolderPath]
  by_cases h : l = [] ∨ l = ['/']
  · rw [if_pos h]
    rcases h with rfl | rfl <;> decide
  · rw [if_neg h]
    apply List.filter_congr
    intro seg _
    by_cases ht : trimChars seg = []
    · have hall : seg.all isJsSpace = true := (trimChars_eq_nil_iff seg).mp ht
      simp [ht, hall]
    · have hall : seg.all isJsSpace = false := by
        rcases Bool.eq_false_or_eq_true (seg.all isJsSpace) with h2 | h2
        · exact absurd ((trimChars_eq_nil_iff seg).mpr h2) ht
        · exact h2
      simp [ht, hall]

/-- Claim C4: every successful `deleteRowSheet` request deletes the
half-open row index range `[row + 1 + rowOffset, row + 2 + rowOffset)`,
i.e. `startIndex = calculateActualRow(row, rowOffset) - 1` and the
range covers exactly one row. -/
theorem claim_C4_deleteRowRange (sheets : List SheetProps) (sheetName : String)
    (row rowOffset : Nat) (req : DeleteDimensionRange)
    (h : deleteRowSheet sheets sheetName row rowOffset = Except.ok req) :
    req.startIndex = calculateActualRow row rowOffset - 1 ∧
      req.endIndex = req.startIndex + 1 ∧ req.dimension = "ROWS" := by
  rw [deleteRowSheet] at h
  cases hf : sheets.find? fun s => decide (s.title = sheetName) with
  | none =>
    rw [hf] at h
    exact absurd h (by simp)
  | some sheet =>
    rw [hf] at h
    simp only [Except.ok.injEq] at h
    subst h
    refine ⟨?_, rfl, rfl⟩
    show row + 1 + rowOffset = calculateActualRow row rowOffset - 1
    rw [calculateActualRow]
    omega

/-- Witness for claim C4 on a one-tab spreadsheet with data row 5 and
row offset 1. -/
theorem claim_C4_witness :
    deleteRowSheet [⟨"Sheet1", 7⟩] "Sheet1" 5 1 = Except.ok ⟨7, "ROWS", 7, 8⟩ ∧
      ((⟨7, "ROWS", 7, 8⟩ : DeleteDimensionRange).startIndex =
          calculateActualRow 5 1 - 1 ∧
        (⟨7, "ROWS", 7, 8⟩ : DeleteDimensionRange).endIndex =
          (⟨7, "ROWS", 7, 8⟩ : DeleteDimensionRange).startIndex + 1 ∧
        (⟨7, "ROWS", 7, 8⟩ : DeleteDimensionRange).dimension = "ROWS") :=
  ⟨rfl, claim_C4_deleteRowRange [⟨"Sheet1", 7⟩] "Sheet1" 5 1 ⟨7, "ROWS", 7, 8⟩ rfl⟩

lemma validateCredentials_ok_iff (label : String) (c : IGoogleServiceAccountCredentials) :
    (∃ u, validateCredentials label c = Except.ok u) ↔ credentialsWellFormedSpec c := by
  rw [validateCredentials]
  simp only [credentialsWellFormedSpec]
  split_ifs with h1 h2 h3 h4 h5
  · refine iff_of_false (by simp) fun hw => ?_
    rw [h1] at hw
    exact absurd hw.1 (by decide)
  · exact iff_of_false (by simp) fun hw => hw.2.1 h2
  · exact iff_of_false (by simp) fun hw => hw.2.2.1 h3
  · exact iff_of_false (by simp) fun hw => hw.2.2.2 h4
  · exact iff_of_false (by simp) fun hw => h5 hw.1
  · exact iff_of_true ⟨(), rfl⟩ ⟨not_not.mp h5, h2, h3, h4⟩

lemma constructConfig_ok_iff (label : String) (ds : List String) (kfp : Option String)
    (creds : Option IGoogleServiceAccountCredentials) (scopes : Option (List String)) :
    (∃ cfg, constructConfig label ds kfp creds scopes = Except.ok cfg) ↔
      ((strTruthy kfp = true ∨ creds ≠ none) ∧
        ∀ c, creds = some c → credentialsWellFormedSpec c) := by
  by_cases h : strTruthy kfp = false ∧ creds = none
  · have hstep : constructConfig label ds kfp creds scopes =
        Except.error (label ++ ": Either keyFilePath or credentials must be provided") := by
      rw [constructConfig, if_pos h]
    rw [hstep]
    obtain ⟨h1, h2⟩ := h
    subst h2
    refine iff_of_false (by simp) ?_
    rintro ⟨hl | hr, -⟩
    · rw [h1] at hl
      exact absurd hl (by decide)
    · exact hr rfl
  · cases creds with
    | none =>
      have h1 : strTruthy kfp = true := by
        rcases Bool.eq_false_or_eq_true (strTruthy kfp) with hb | hb
        · exact hb
        · exact absurd ⟨hb, rfl⟩ h
      have hstep : constructConfig label ds kfp none scopes =
          Except.ok { keyFilePath := kfp, credentials := none, scopes := scopes.getD ds } := by
        rw [constructConfig, if_neg h]
      rw [hstep]
      exact iff_of_true ⟨_, rfl⟩ ⟨Or.inl h1, fun c hc => by cases hc⟩
    | some c =>
      have hstep : constructConfig label ds kfp (some c) scopes =
          (validateCredentials label c).map fun _ =>
            ({ keyFilePath := kfp, credentials := some c,
               scopes := scopes.getD ds } : GoogleClientConfig) := by
        rw [constructConfig, if_neg h]
      rw [hstep]
      constructor
      · rintro ⟨cfg, hcfg⟩
        refine ⟨Or.inr (by simp), fun d hd => ?_⟩
        injection hd with hd'
        subst hd'
        cases hv : validateCredentials label c with
        | error e =>
          rw [hv] at hcfg
          exact absurd hcfg (by simp [Except.map])
        | ok u => exact (validateCredentials_ok_iff label c).mp ⟨u, hv⟩
      · rintro ⟨-, hwf⟩
        obtain ⟨u, hu⟩ := (validateCredentials_ok_iff label c).mpr (hwf c rfl)
        exact ⟨_, by rw [hu]; rfl⟩

/-- Counterexample for claim C3: supplying both a key-file path and a
well-formed inline record does not fail — construction succeeds even
though the "exactly one form" condition of the claim is violated. -/
theorem claim_C3_counterexample :
    (∃ cfg, GoogleDriveConfigMk (some "key.json")
        (some ⟨"service_account", "my-project", "key-data", "sa@my-project"⟩) none =
          Except.ok cfg) ∧
      (∃ cfg, GoogleSheetConfigMk (some "key.json")
          (some ⟨"service_account", "my-project", "key-data", "sa@my-project"⟩) none =
            Except.ok cfg) ∧
      ¬ exactlyOneCredentialFormSpec (some "key.json")
          (some ⟨"service_account", "my-project", "key-data", "sa@my-project"⟩) :=
  ⟨⟨_, rfl⟩, ⟨_, rfl⟩, by simp only [exactlyOneCredentialFormSpec]; decide⟩

/-- Claim C3 (amended): construction succeeds iff at least one
credential form is present — a truthy key-file path or an inline
record, both together being accepted — and any supplied inline record
has truthy `type`, `project_id`, `private_key` and `client_email`
fields with `type = 'service_account'`; otherwise a
`ConfigurationError` is thrown. -/
theorem claim_C3_amended :
    ∀ (kfp : Option String) (creds : Option IGoogleServiceAccountCredentials)
      (scopes : Option (List String)),
      ((∃ cfg, GoogleDriveConfigMk kfp creds scopes = Except.ok cfg) ↔
        ((strTruthy kfp = true ∨ creds ≠ none) ∧
          ∀ c, creds = some c → credentialsWellFormedSpec c)) ∧
      ((∃ cfg, GoogleSheetConfigMk kfp creds scopes = Except.ok cfg) ↔
        ((strTruthy kfp = true ∨ creds ≠ none) ∧
          ∀ c, creds = some c → credentialsWellFormedSpec c)) :=
  fun kfp creds scopes =>
    ⟨constructConfig_ok_iff "GoogleDriveConfig" DEFAULT_DRIVE_SCOPES kfp creds scopes,
      constructConfig_ok_iff "GoogleSheetConfig" DEFAULT_SHEET_SCOPES kfp creds scopes⟩

/-- Claim C5: the folder resolver is a left-to-right get-or-create
walk.  An empty parsed path returns the root identifier with the state
untouched (no remote calls); a lookup hit adopts the found identifier
and a miss creates the folder and adopts the fresh identifier; and on
a mock remote with an empty root, resolving `"Reports/2024"` issues
exactly two not-found lookups and two creates, returning the
identifier (2) of the `2024` folder whose parent is the `Reports`
folder (1), itself under the root (0). -/
theorem claim_C5_folderResolver :
    (∀ (folderPath : List Char) (st : MockDrive), parseFolderPath folderPath = [] →
        createFolderHierarchy folderPath st = (0, st)) ∧
    (∀ (folderName : List Char) (parentId : Nat) (st : MockDrive) (f : MockFolder),
        (st.folders.find? fun f' => decide (f'.name = folderName ∧ f'.parent = parentId ∧
          f'.trashed = false)) = some f →
        getOrCreateFolder folderName parentId st =
          (f.id, { st with
            events := st.events ++ [DriveEvent.lookup folderName parentId true] })) ∧
    (∀ (folderName : List Char) (parentId : Nat) (st : MockDrive),
        (st.folders.find? fun f' => decide (f'.name = folderName ∧ f'.parent = parentId ∧
          f'.trashed = false)) = none →
        getOrCreateFolder folderName parentId st =
          (st.nextId,
            { folders := st.folders ++ [⟨st.nextId, folderName, parentId, false⟩],
              nextId := st.nextId + 1,
              events := st.events ++
                [DriveEvent.lookup folderName parentId false,
                  DriveEvent.create folderName parentId st.nextId] })) ∧
    createFolderHierarchy ['R', 'e', 'p', 'o', 'r', 't', 's', '/', '2', '0', '2', '4']
        ⟨[], 1, []⟩ =
      (2, ⟨[⟨1, ['R', 'e', 'p', 'o', 'r', 't', 's'], 0, false⟩,
            ⟨2, ['2', '0', '2', '4'], 1, false⟩], 3,
           [DriveEvent.lookup ['R', 'e', 'p', 'o', 'r', 't', 's'] 0 false,
            DriveEvent.create ['R', 'e', 'p', 'o', 'r', 't', 's'] 0 1,
            DriveEvent.lookup ['2', '0', '2', '4'] 1 false,
            DriveEvent.create ['2', '0', '2', '4'] 1 2]⟩) := by
  refine ⟨fun folderPath st h => ?_, fun folderName parentId st f h => ?_,
    fun folderName parentId st h => ?_, by decide⟩
  · simp only [createFolderHierarchy]
    rw [if_pos h]
  · simp only [getOrCreateFolder]
    rw [h]
  · simp only [getOrCreateFolder]
    rw [h]

/-- Witness for claim C5: the root path `"/"` resolves to the root
identifier without touching the mock state, and both `getOrCreateFolder`
behaviours fire on a one-folder mock drive. -/
theorem claim_C5_witness :
    (parseFolderPath ['/'] = [] ∧
      createFolderHierarchy ['/'] ⟨[⟨1, ['x'], 0, false⟩], 2, []⟩ =
        (0, ⟨[⟨1, ['x'], 0, false⟩], 2, []⟩)) ∧
      ((MockDrive.mk [⟨1, ['x'], 0, false⟩] 2 []).folders.find? (fun f' =>
          decide (f'.name = ['x'] ∧ f'.parent = 0 ∧ f'.trashed = false)) =
            some ⟨1, ['x'], 0, false⟩ ∧
        getOrCreateFolder ['x'] 0 ⟨[⟨1, ['x'], 0, false⟩], 2, []⟩ =
          (1, ⟨[⟨1, ['x'], 0, false⟩], 2, [DriveEvent.lookup ['x'] 0 true]⟩)) ∧
      ((MockDrive.mk [⟨1, ['x'], 0, false⟩] 2 []).folders.find? (fun f' =>
          decide (f'.name = ['y'] ∧ f'.parent = 0 ∧ f'.trashed = false)) = none ∧
        getOrCreateFolder ['y'] 0 ⟨[⟨1, ['x'], 0, false⟩], 2, []⟩ =
          (2, ⟨[⟨1, ['x'], 0, false⟩, ⟨2, ['y'], 0, false⟩], 3,
               [DriveEvent.lookup ['y'] 0 false, DriveEvent.create ['y'] 0 2]⟩)) :=
  ⟨⟨by decide, claim_C5_folderResolver.1 ['/'] ⟨[⟨1, ['x'], 0, false⟩], 2, []⟩ (by decide)⟩,
    ⟨by decide, claim_C5_folderResolver.2.1 ['x'] 0 ⟨[⟨1, ['x'], 0, false⟩], 2, []⟩
      ⟨1, ['x'], 0, false⟩ (by decide)⟩,
    ⟨by decide, claim_C5_folderResolver.2.2.1 ['y'] 0 ⟨[⟨1, ['x'], 0, false⟩], 2, []⟩
      (by decide)⟩⟩

lemma spreadsheetIdLiteral_length : spreadsheetIdLiteral.length = 16 := rfl

lemma take16_iff (l : List Char) :
    l.take 16 = spreadsheetIdLiteral ↔ ∃ b, l = spreadsheetIdLiteral ++ b := by
  constructor
  · intro h
    exact ⟨l.drop 16, by rw [← h, List.take_append_drop]⟩
  · rintro ⟨b, rfl⟩
    exact List.take_left' spreadsheetIdLiteral_length

lemma drop16_append (b : List Char) : (spreadsheetIdLiteral ++ b).drop 16 = b :=
  List.drop_left' spreadsheetIdLiteral_length

lemma matchSpreadsheetIdAt_some_iff (l v : List Char) :
    matchSpreadsheetIdAt l = some v ↔
      (l.take 16 = spreadsheetIdLiteral ∧ (l.drop 16).takeWhile isIdChar ≠ [] ∧
        v = (l.drop 16).takeWhile isIdChar) := by
  rw [matchSpreadsheetIdAt]
  split_ifs with h
  · constructor
    · intro hv
      injection hv with hv'
      exact ⟨h.1, h.2, hv'.symm⟩
    · rintro ⟨-, -, rfl⟩
      rfl
  · constructor
    · intro hv
      simp at hv
    · rintro ⟨h1, h2, -⟩
      exact absurd ⟨h1, h2⟩ h

lemma matchSpreadsheetIdAt_none_iff (l : List Char) :
    matchSpreadsheetIdAt l = none ↔
      ¬(l.take 16 = spreadsheetIdLiteral ∧ (l.drop 16).takeWhile isIdChar ≠ []) := by
  rw [matchSpreadsheetIdAt]
  split_ifs with h
  · exact iff_of_false (by simp) (not_not_intro h)
  · exact iff_of_true rfl h

lemma scanSpreadsheetId_none_iff :
    ∀ url : List Char,
      scanSpreadsheetId url = none ↔
        ¬∃ a b, url = a ++ spreadsheetIdLiteral ++ b ∧ b.takeWhile isIdChar ≠ [] := by
  intro url
  induction url with
  | nil =>
    refine iff_of_true rfl ?_
    rintro ⟨a, b, habs, -⟩
    have hlen := congrArg List.length habs
    simp only [List.length_nil, List.length_append, spreadsheetIdLiteral_length] at hlen
    omega
  | cons c rest ih =>
    simp only [scanSpreadsheetId]
    cases hm : matchSpreadsheetIdAt (c :: rest) with
    | some w =>
      obtain ⟨hpre, hne, -⟩ := (matchSpreadsheetIdAt_some_iff _ _).mp hm
      obtain ⟨b, hb⟩ := (take16_iff _).mp hpre
      rw [hb, drop16_append] at hne
      exact iff_of_false (by simp)
        (not_not_intro ⟨[], b, by simpa using hb, hne⟩)
    | none =>
      rw [ih]
      have hnm := (matchSpreadsheetIdAt_none_iff _).mp hm
      apply not_congr
      constructor
      · rintro ⟨a, b, hurl, hne⟩
        exact ⟨c :: a, b, by simp [hurl], hne⟩
      · rintro ⟨a, b, hurl, hne⟩
        cases a with
        | nil =>
          exfalso
          simp only [List.nil_append] at hurl
          exact hnm ⟨(take16_iff _).mpr ⟨b, hurl⟩, by rw [hurl, drop16_append]; exact hne⟩
        | cons c0 a0 =>
          simp only [List.cons_append, List.cons.injEq] at hurl
          exact ⟨a0, b, hurl.2, hne⟩

lemma scanSpreadsheetId_some_iff :
    ∀ url v : List Char,
      scanSpreadsheetId url = some v ↔
        ∃ a b, url = a ++ spreadsheetIdLiteral ++ b ∧ b.takeWhile isIdChar ≠ [] ∧
          v = b.takeWhile isIdChar ∧
          ∀ a' b', url = a' ++ spreadsheetIdLiteral ++ b' → b'.takeWhile isIdChar ≠ [] →
            a.length ≤ a'.length := by
  intro url
  induction url with
  | nil =>
    intro v
    simp only [scanSpreadsheetId]
    constructor
    · intro h
      simp at h
    · rintro ⟨a, b, habs, -⟩
      have hlen := congrArg List.length habs
      simp [spreadsheetIdLiteral_length] at hlen
      omega
  | cons c rest ih =>
    intro v
    simp only [scanSpreadsheetId]
    cases hm : matchSpreadsheetIdAt (c :: rest) with
    | some w =>
      obtain ⟨hpre, hne, hw⟩ := (matchSpreadsheetIdAt_some_iff _ _).mp hm
      obtain ⟨b, hb⟩ := (take16_iff _).mp hpre
      rw [hb, drop16_append] at hne hw
      constructor
      · intro hv
        injection hv with hv'
        subst hv'
        refine ⟨[], b, by simpa using hb, hne, hw, ?_⟩
        intro a' b' _ _
        simp
      · rintro ⟨a, b2, hurl, hne2, hv2, hmin⟩
        have h0 : a.length ≤ 0 := hmin [] b (by simpa using hb) hne
        have ha : a = [] := List.eq_nil_of_length_eq_zero (Nat.le_zero.mp h0)
        subst ha
        simp only [List.nil_append] at hurl
        rw [hb] at hurl
        have hb2 : b2 = b := (List.append_cancel_left hurl.symm)
        subst hb2
        rw [hv2, hw]
    | none =>
      rw [ih v]
      have hnm := (matchSpreadsheetIdAt_none_iff _).mp hm
      constructor
      · rintro ⟨a, b, hurl, hne, hv, hmin⟩
        refine ⟨c :: a, b, by simp [hurl], hne, hv, ?_⟩
        intro a' b' hurl' hne'
        cases a' with
        | nil =>
          exfalso
          simp only [List.nil_append] at hurl'
          exact hnm ⟨(take16_iff _).mpr ⟨b', hurl'⟩,
            by rw [hurl', drop16_append]; exact hne'⟩
        | cons c' a'' =>
          simp only [List.cons_append, List.cons.injEq] at hurl'
          have := hmin a'' b' hurl'.2 hne'
          simp only [List.length_cons]
          omega
      · rintro ⟨a, b, hurl, hne, hv, hmin⟩
        cases a with
        | nil =>
          exfalso
          simp only [List.nil_append] at hurl
          exact hnm ⟨(take16_iff _).mpr ⟨b, hurl⟩, by rw [hurl, drop16_append]; exact hne⟩
        | cons c0 a0 =>
          simp only [List.cons_append, List.cons.injEq] at hurl
          refine ⟨a0, b, hurl.2, hne, hv, ?_⟩
          intro a' b' hurl' hne'
          have := hmin (c :: a') b' (by simp [hurl']) hne'
          simp only [List.length_cons] at this
          omega

/-- Claim C9: `getSheetIdFromUrl` returns the identifier captured at
the first position where `/spreadsheets/d/` is followed by at least one
identifier character (the capture being the greedy identifier run
there), and `none` exactly when no such position exists; in particular
the documented example URL yields `1abc123def`. -/
theorem claim_C9_getSheetIdFromUrl :
    getSheetIdFromUrl "https://docs.google.com/spreadsheets/d/1abc123def/edit".toList =
        some "1abc123def".toList ∧
    (∀ url : List Char,
        getSheetIdFromUrl url = none ↔
          ¬∃ a b, url = a ++ spreadsheetIdLiteral ++ b ∧ b.takeWhile isIdChar ≠ []) ∧
    (∀ url v : List Char,
        getSheetIdFromUrl url = some v ↔
          ∃ a b, url = a ++ spreadsheetIdLiteral ++ b ∧ b.takeWhile isIdChar ≠ [] ∧
            v = b.takeWhile isIdChar ∧
            ∀ a' b', url = a' ++ spreadsheetIdLiteral ++ b' → b'.takeWhile isIdChar ≠ [] →
              a.length ≤ a'.length) :=
  ⟨by decide, fun url => scanSpreadsheetId_none_iff url,
    fun url v => scanSpreadsheetId_some_iff url v⟩

/-- Witness for claim C9: a URL without the literal segment is rejected,
and the not-found characterisation applies to it. -/
theorem claim_C9_witness :
    getSheetIdFromUrl ['x'] = none ∧
      ¬∃ a b, (['x'] : List Char) = a ++ spreadsheetIdLiteral ++ b ∧
        b.takeWhile isIdChar ≠ [] :=
  ⟨by decide, (claim_C9_getSheetIdFromUrl.2.1 ['x']).mp (by decide)⟩
